import Mathlib

/-!
Verification development for the rule-language subsystem of an IoT device
agent (files `agents/rules/ruleEngine.py` and `agents/rules/rule_agent.py`).
Lines of rule text are modelled as lists of characters, so that the literal
string operations of the source (strip, split, substring containment,
substring replacement) can be stated and proved exactly.
-/

deriving instance DecidableEq for Except

/-- Strings of the modelled program, as plain character lists. -/
abbrev Chars := List Char

/-- Coerce a Lean string literal to the character-list representation. -/
def chars (s : String) : Chars := s.data

/-- Whitespace characters stripped by the Python `str.strip` default. -/
def isPySpace (c : Char) : Bool :=
  c = ' ' || c = '\t' || c = '\n' || c = '\r' || c = '\x0b' || c = '\x0c'

/-- Model of Python `str.strip`: drop whitespace from both ends. -/
def pyStrip (l : Chars) : Chars :=
  ((l.dropWhile isPySpace).reverse.dropWhile isPySpace).reverse

/-- Helper for `wordsOf`: the first argument accumulates the current word
in reverse. -/
def wordsAux : Chars → Chars → List Chars
  | acc, [] => if acc = [] then [] else [acc.reverse]
  | acc, c :: cs =>
    if isPySpace c then
      if acc = [] then wordsAux [] cs else acc.reverse :: wordsAux [] cs
    else wordsAux (c :: acc) cs

/-- Model of Python `str.split()` with no argument: words are maximal runs
of non-whitespace; leading, trailing and repeated whitespace produce no
empty words. -/
def wordsOf (l : Chars) : List Chars := wordsAux [] l

/-- Model of Python `expression.split(chr(10))`: split at every newline,
keeping empty segments. -/
def splitOnNl : Chars → List Chars
  | [] => [[]]
  | c :: cs =>
    if c = '\n' then [] :: splitOnNl cs
    else
      match splitOnNl cs with
      | [] => [[c]]
      | l :: ls => (c :: l) :: ls

/-- Substring occurrence test, modelling the Python `in` operator on
strings: the pattern occurs as a prefix of some suffix. -/
def occursIn (pat : Chars) : Chars → Bool
  | [] => pat.isPrefixOf ([] : Chars)
  | c :: rest => pat.isPrefixOf (c :: rest) || occursIn pat rest

/-- Fueled worker for `replaceSub`. Every step consumes at least one
character, so fuel equal to the string length is never exhausted; the
fuel-out branch returns the string unchanged. -/
def replaceSubF (pat rep : Chars) : ℕ → Chars → Chars
  | _, [] => []
  | 0, s => s
  | fuel + 1, c :: rest =>
    if pat ≠ [] ∧ pat.isPrefixOf (c :: rest) then
      rep ++ replaceSubF pat rep fuel ((c :: rest).drop pat.length)
    else
      c :: replaceSubF pat rep fuel rest

/-- Model of Python `str.replace` for a non-empty pattern: scan left to
right, replacing each non-overlapping occurrence of `pat` by `rep`.
The source only ever replaces non-empty patterns (measurement identifiers
and the two logical-operator aliases), so the empty-pattern behaviour of
Python (which inserts `rep` at every position) is not modelled: an empty
pattern leaves the string unchanged here. -/
def replaceSub (pat rep s : Chars) : Chars := replaceSubF pat rep s.length s

/-- Model of Python `line.split(chr(61), 1)` unpacked into two parts:
the text before the first equals sign and the text after it. -/
def splitOnFirstEq (l : Chars) : Chars × Chars :=
  (l.takeWhile (fun c => c != '='), (l.dropWhile (fun c => c != '=')).drop 1)

/-- Model of the regex search for the first parenthesised group with a
lazy body: the content between the first opening parenthesis and the next
closing parenthesis after it, or nothing when no such pair exists. -/
def extractParen (line : Chars) : Option Chars :=
  let after := (line.dropWhile (fun c => c != '(')).drop 1
  if line.contains '(' && after.contains ')' then
    some (after.takeWhile (fun c => c != ')'))
  else none

/-- Model of Python `str.islower` restricted to ASCII input: at least one
letter, and no uppercase letter. -/
def pyIsLower (w : Chars) : Bool :=
  w.any Char.isAlpha && w.all (fun c => !c.isAlpha || c.isLower)

/-- Model of Python `str.isupper` restricted to ASCII input: at least one
letter, and no lowercase letter. -/
def pyIsUpper (w : Chars) : Bool :=
  w.any Char.isAlpha && w.all (fun c => !c.isAlpha || c.isUpper)

/-- Error kinds raised by the engine. Each constructor corresponds to one
raise site of the source (or of the host evaluator invoked by it). -/
inductive RuleError where
  | badCapitalization (word line : Chars)
  | invalidKeyword (word line : Chars)
  | missingThen (line : Chars)
  | noParenMatch (line : Chars)
  | elseifWithoutIf (line : Chars)
  | elseWithoutIf (line : Chars)
  | endifWithoutIf (line : Chars)
  | unmatchedIf (stack : List (Bool × Bool))
  | midNotFound (mid : Chars)
  | dataIndex (mid : Chars)
  | nameError (name : Chars)
  | typeError (name : Chars)
  | zeroDivision
  | valueError (name : Chars)
  | indexError
  | exprSyntax (s : Chars)
  | notModelled (name : Chars)
  deriving DecidableEq, Repr

/-- Values produced by the host evaluator on the restricted expression
grammar: numbers (Python ints and floats, both modelled as rationals) and
booleans. -/
inductive Value where
  | num (q : ℚ)
  | bool (b : Bool)
  deriving DecidableEq, Repr

/-- Numeric coercion: Python treats booleans as the integers 0 and 1 in
arithmetic contexts. -/
def toQ : Value → ℚ
  | .num q => q
  | .bool b => if b then 1 else 0

/-- Python truthiness of a value. -/
def truthy : Value → Bool
  | .num q => q ≠ 0
  | .bool b => b

/-- Variable environment of one engine instance (`self.variables`). -/
abbrev VarEnv := List (Chars × Value)

/-- Lookup in the variable environment. -/
def lookupAssoc (env : VarEnv) (k : Chars) : Option Value :=
  match env with
  | [] => none
  | (k', v) :: rest => if k' = k then some v else lookupAssoc rest k

/-- Dictionary update: overwrite the binding in place when the key exists,
otherwise append it. -/
def updateAssoc (env : VarEnv) (k : Chars) (v : Value) : VarEnv :=
  match env with
  | [] => [(k, v)]
  | (k', v') :: rest =>
    if k' = k then (k, v) :: rest else (k', v') :: updateAssoc rest k v

/-- Python left-fold sum with initial value 0, as used by `sum`. -/
def pySum (l : List ℚ) : ℚ := l.foldl (fun a b => a + b) 0

/-- Python modulo on numbers: the remainder has the sign of the divisor,
computed as `a - b * floor (a / b)`. -/
def pymod (a b : ℚ) : ℚ := a - b * ((Rat.floor (a / b) : ℤ) : ℚ)

/-- Names in the function table bound to variadic lambdas. -/
def variadicNames : List Chars :=
  [chars "SUM", chars "SUB", chars "PROD", chars "MIN", chars "MAX",
   chars "AVG"]

/-- Names in the function table bound to one-argument lambdas. -/
def oneArgNames : List Chars :=
  [chars "ABS", chars "SIN", chars "COS", chars "TAN", chars "SQRT",
   chars "LOG", chars "LOG10", chars "EXP", chars "ATAN"]

/-- Transcendental operations: these return host floating-point values and
are outside the rational model, so applying one is mapped to a dedicated
error. No claim exercises them. -/
def transcNames : List Chars :=
  [chars "SIN", chars "COS", chars "TAN", chars "SQRT", chars "LOG",
   chars "LOG10", chars "EXP", chars "ATAN"]

/-- Every name of `self.context_dict`. -/
def allFuncNames : List Chars := variadicNames ++ (chars "MOD" :: oneArgNames)

/-- Embedding of `RuleEngine.math_operation` on rational arguments. Each
branch mirrors one branch of the source dispatch; Python exceptions map to
the corresponding error constructors (`IndexError` for `SUB` of no
arguments, `ZeroDivisionError` for `AVG` of no arguments and for zero
divisors, `ValueError` for `MIN`/`MAX` of no arguments and for an unknown
operation name). -/
def math_operation (op : Chars) (args : List ℚ) : Except RuleError ℚ :=
  if op = chars "SUM" then .ok (pySum args)
  else if op = chars "SUB" then
    match args with
    | [] => .error .indexError
    | [a] => .ok a
    | a :: rest => .ok (a - pySum rest)
  else if op = chars "PROD" then .ok (args.foldl (fun a b => a * b) 1)
  else if op = chars "MOD" then
    match args with
    | [a, b] => if b = 0 then .error .zeroDivision else .ok (pymod a b)
    | _ => .error (.typeError op)
  else if op = chars "ABS" then
    match args with
    | [a] => .ok |a|
    | _ => .error (.typeError op)
  else if op = chars "MIN" then
    match args with
    | [] => .error (.valueError op)
    | a :: rest => .ok (rest.foldl min a)
  else if op = chars "MAX" then
    match args with
    | [] => .error (.valueError op)
    | a :: rest => .ok (rest.foldl max a)
  else if op = chars "AVG" then
    if args = [] then .error .zeroDivision
    else .ok (pySum args / (args.length : ℚ))
  else if op ∈ transcNames then .error (.notModelled op)
  else .error (.valueError op)

/-- Tokens of the restricted expression grammar. -/
inductive Tok where
  | num (n : ℤ)
  | ident (s : Chars)
  | sym (s : Chars)
  deriving DecidableEq, Repr

/-- Identifier start characters. -/
def isIdentStart (c : Char) : Bool := c.isAlpha || c = '_'

/-- Identifier continuation characters. -/
def isIdentChar (c : Char) : Bool := c.isAlphanum || c = '_'

/-- Decimal value of a digit list. -/
def digitsToInt (ds : Chars) : ℤ :=
  (ds.foldl (fun acc c => acc * 10 + (c.toNat - '0'.toNat)) 0 : ℕ)

/-- Two-character operator symbols. -/
def twoCharSyms : List Chars :=
  [chars "<=", chars ">=", chars "==", chars "!="]

/-- Single-character operator and punctuation symbols. -/
def oneCharSyms : List Char := ['+', '-', '*', '/', '%', '(', ')', ',', '<', '>']

/-- Fueled tokenizer worker; every step consumes at least one character,
and the entry point supplies fuel exceeding the input length, so the fuel
branch is never reached on any input. -/
def tokenizeF : ℕ → Chars → Except RuleError (List Tok)
  | 0, s => .error (.exprSyntax s)
  | _ + 1, [] => .ok []
  | fuel + 1, c :: cs =>
    if isPySpace c then tokenizeF fuel cs
    else if c.isDigit then
      let ds := c :: cs.takeWhile Char.isDigit
      let rest := cs.dropWhile Char.isDigit
      (tokenizeF fuel rest).map (fun ts => Tok.num (digitsToInt ds) :: ts)
    else if isIdentStart c then
      let nm := c :: cs.takeWhile isIdentChar
      let rest := cs.dropWhile isIdentChar
      (tokenizeF fuel rest).map (fun ts => Tok.ident nm :: ts)
    else
      match cs with
      | c2 :: cs2 =>
        if [c, c2] ∈ twoCharSyms then
          (tokenizeF fuel cs2).map (fun ts => Tok.sym [c, c2] :: ts)
        else if c ∈ oneCharSyms then
          (tokenizeF fuel (c2 :: cs2)).map (fun ts => Tok.sym [c] :: ts)
        else .error (.exprSyntax (c :: cs))
      | [] =>
        if c ∈ oneCharSyms then .ok [Tok.sym [c]]
        else .error (.exprSyntax [c])

/-- Tokenizer for the restricted expression grammar evaluated by the host
`eval` call: integer literals, identifiers, comparison and arithmetic
operators, parentheses and commas. Any other character is a syntax
error. -/
def tokenize (s : Chars) : Except RuleError (List Tok) :=
  tokenizeF (s.length + 1) s

/-- Binary operators of the restricted grammar. -/
inductive BinOp where
  | add | sub | mul | div | mod
  | lt | le | gt | ge | eq | ne
  deriving DecidableEq, Repr

/-- Abstract syntax of the restricted expression grammar. -/
inductive Expr where
  | lit (n : ℤ)
  | evar (s : Chars)
  | neg (e : Expr)
  | lognot (e : Expr)
  | orE (a b : Expr)
  | andE (a b : Expr)
  | bin (o : BinOp) (a b : Expr)
  | call (f : Chars) (args : List Expr)

/-- Comparison operator lookup for a symbol token. -/
def cmpOpOf (s : Chars) : Option BinOp :=
  if s = chars "<" then some .lt
  else if s = chars "<=" then some .le
  else if s = chars ">" then some .gt
  else if s = chars ">=" then some .ge
  else if s = chars "==" then some .eq
  else if s = chars "!=" then some .ne
  else none

/-- Precedence levels of the restricted grammar, outermost first. -/
inductive Lv where
  | lor | land | lnot | lcmp | ladd | lmul | lunary | latom
  deriving DecidableEq, Repr

/-- Parser modes: parse one expression at a level, continue a
left-associated operator chain with an accumulated left operand, or parse
a call argument list (accumulated in reverse). -/
inductive PM where
  | lvl (l : Lv)
  | tail (l : Lv) (acc : Expr)
  | argsStart
  | argsNext (acc : List Expr)

/-- Unpack a parser result expected to be one expression. -/
def expectOne : (Expr ⊕ List Expr) × List Tok → Except RuleError (Expr × List Tok)
  | (.inl a, r) => .ok (a, r)
  | (.inr _, _) => .error (.exprSyntax (chars "internal"))

/-- Unpack a parser result expected to be an argument list. -/
def expectMany : (Expr ⊕ List Expr) × List Tok → Except RuleError (List Expr × List Tok)
  | (.inr a, r) => .ok (a, r)
  | (.inl _, _) => .error (.exprSyntax (chars "internal"))

/-- Fueled recursive-descent parser for the restricted expression grammar
evaluated by the host `eval` call. Each recursive call reduces the fuel by
one; the entry point supplies fuel linear in the token count, which
bounds the nesting depth of the recursion, so the fuel branch is never
reached on any input. Comparisons are parsed as a single optional binary
comparison; Python chained comparisons are not modelled (no rule uses
them). -/
def parseF : ℕ → PM → List Tok → Except RuleError ((Expr ⊕ List Expr) × List Tok)
  | 0, _, _ => .error (.exprSyntax (chars "fuel"))
  | fuel + 1, .lvl .lor, ts => do
    let p ← parseF fuel (.lvl .land) ts
    let (a, r) ← expectOne p
    parseF fuel (.tail .lor a) r
  | fuel + 1, .tail .lor a, ts =>
    match ts with
    | Tok.ident s :: rest =>
      if s = chars "or" then do
        let p ← parseF fuel (.lvl .land) rest
        let (b, r) ← expectOne p
        parseF fuel (.tail .lor (Expr.orE a b)) r
      else .ok (.inl a, ts)
    | _ => .ok (.inl a, ts)
  | fuel + 1, .lvl .land, ts => do
    let p ← parseF fuel (.lvl .lnot) ts
    let (a, r) ← expectOne p
    parseF fuel (.tail .land a) r
  | fuel + 1, .tail .land a, ts =>
    match ts with
    | Tok.ident s :: rest =>
      if s = chars "and" then do
        let p ← parseF fuel (.lvl .lnot) rest
        let (b, r) ← expectOne p
        parseF fuel (.tail .land (Expr.andE a b)) r
      else .ok (.inl a, ts)
    | _ => .ok (.inl a, ts)
  | fuel + 1, .lvl .lnot, ts =>
    match ts with
    | Tok.ident s :: rest =>
      if s = chars "not" then do
        let p ← parseF fuel (.lvl .lnot) rest
        let (a, r) ← expectOne p
        .ok (.inl (Expr.lognot a), r)
      else parseF fuel (.lvl .lcmp) ts
    | _ => parseF fuel (.lvl .lcmp) ts
  | fuel + 1, .lvl .lcmp, ts => do
    let p ← parseF fuel (.lvl .ladd) ts
    let (a, r) ← expectOne p
    match r with
    | Tok.sym s :: rest =>
      match cmpOpOf s with
      | some o => do
        let p2 ← parseF fuel (.lvl .ladd) rest
        let (b, r2) ← expectOne p2
        .ok (.inl (Expr.bin o a b), r2)
      | none => .ok (.inl a, r)
    | _ => .ok (.inl a, r)
  | fuel + 1, .lvl .ladd, ts => do
    let p ← parseF fuel (.lvl .lmul) ts
    let (a, r) ← expectOne p
    parseF fuel (.tail .ladd a) r
  | fuel + 1, .tail .ladd a, ts =>
    match ts with
    | Tok.sym s :: rest =>
      if s = chars "+" then do
        let p ← parseF fuel (.lvl .lmul) rest
        let (b, r) ← expectOne p
        parseF fuel (.tail .ladd (Expr.bin .add a b)) r
      else if s = chars "-" then do
        let p ← parseF fuel (.lvl .lmul) rest
        let (b, r) ← expectOne p
        parseF fuel (.tail .ladd (Expr.bin .sub a b)) r
      else .ok (.inl a, ts)
    | _ => .ok (.inl a, ts)
  | fuel + 1, .lvl .lmul, ts => do
    let p ← parseF fuel (.lvl .lunary) ts
    let (a, r) ← expectOne p
    parseF fuel (.tail .lmul a) r
  | fuel + 1, .tail .lmul a, ts =>
    match ts with
    | Tok.sym s :: rest =>
      if s = chars "*" then do
        let p ← parseF fuel (.lvl .lunary) rest
        let (b, r) ← expectOne p
        parseF fuel (.tail .lmul (Expr.bin .mul a b)) r
      else if s = chars "/" then do
        let p ← parseF fuel (.lvl .lunary) rest
        let (b, r) ← expectOne p
        parseF fuel (.tail .lmul (Expr.bin .div a b)) r
      else if s = chars "%" then do
        let p ← parseF fuel (.lvl .lunary) rest
        let (b, r) ← expectOne p
        parseF fuel (.tail .lmul (Expr.bin .mod a b)) r
      else .ok (.inl a, ts)
    | _ => .ok (.inl a, ts)
  | fuel + 1, .lvl .lunary, ts =>
    match ts with
    | Tok.sym s :: rest =>
      if s = chars "-" then do
        let p ← parseF fuel (.lvl .lunary) rest
        let (a, r) ← expectOne p
        .ok (.inl (Expr.neg a), r)
      else parseF fuel (.lvl .latom) ts
    | _ => parseF fuel (.lvl .latom) ts
  | fuel + 1, .lvl .latom, ts =>
    match ts with
    | Tok.num n :: rest => .ok (.inl (Expr.lit n), rest)
    | Tok.ident s :: Tok.sym p :: rest =>
      if p = chars "(" then do
        let q ← parseF fuel .argsStart rest
        let (args, r) ← expectMany q
        .ok (.inl (Expr.call s args), r)
      else .ok (.inl (Expr.evar s), Tok.sym p :: rest)
    | Tok.ident s :: rest => .ok (.inl (Expr.evar s), rest)
    | Tok.sym p :: rest =>
      if p = chars "(" then do
        let q ← parseF fuel (.lvl .lor) rest
        let (a, r) ← expectOne q
        match r with
        | Tok.sym c :: r2 =>
          if c = chars ")" then .ok (.inl a, r2)
          else .error (.exprSyntax (chars "paren"))
        | _ => .error (.exprSyntax (chars "paren"))
      else .error (.exprSyntax (chars "atom"))
    | _ => .error (.exprSyntax (chars "atom"))
  | _ + 1, .tail _ a, ts => .ok (.inl a, ts)
  | fuel + 1, .argsStart, ts =>
    if ts.head? = some (Tok.sym (chars ")")) then .ok (.inr [], ts.tail)
    else do
      let q ← parseF fuel (.lvl .lor) ts
      let (a, r) ← expectOne q
      parseF fuel (.argsNext [a]) r
  | fuel + 1, .argsNext acc, ts =>
    match ts with
    | Tok.sym p :: rest =>
      if p = chars ")" then .ok (.inr acc.reverse, rest)
      else if p = chars "," then do
        let q ← parseF fuel (.lvl .lor) rest
        let (a, r) ← expectOne q
        parseF fuel (.argsNext (a :: acc)) r
      else .error (.exprSyntax (chars "args"))
    | _ => .error (.exprSyntax (chars "args"))

/-- Parse a whole expression string: tokenize, parse with ample fuel and
require that every token is consumed. -/
def parseExprString (s : Chars) : Except RuleError Expr := do
  let toks ← tokenize s
  let p ← parseF (10 * toks.length + 20) (.lvl .lor) toks
  let (e, rest) ← expectOne p
  if rest = [] then .ok e else .error (.exprSyntax s)

/-- Resolve a bare identifier against the merged evaluation namespace
(variables shadow the function table, mirroring the dictionary merge in
the source). A bare function name used as a value is outside the model
and maps to a type error; an unknown name is the Python `NameError`. -/
def resolveName (vars : VarEnv) (name : Chars) : Except RuleError Value :=
  match lookupAssoc vars name with
  | some v => .ok v
  | none =>
    if name ∈ allFuncNames then .error (.typeError name)
    else .error (.nameError name)

/-- Apply a function-table entry to evaluated arguments, enforcing the
arity declared by the corresponding lambda in `self.context_dict`. -/
def applyFunc (f : Chars) (args : List Value) : Except RuleError Value :=
  if f ∈ variadicNames then (math_operation f (args.map toQ)).map .num
  else if f = chars "MOD" then
    match args with
    | [a, b] => (math_operation f [toQ a, toQ b]).map .num
    | _ => .error (.typeError f)
  else if f ∈ oneArgNames then
    match args with
    | [a] => (math_operation f [toQ a]).map .num
    | _ => .error (.typeError f)
  else .error (.nameError f)

/-- Apply a non-short-circuit binary operator to two values. -/
def applyBin (o : BinOp) (va vb : Value) : Except RuleError Value :=
  match o with
  | .add => .ok (.num (toQ va + toQ vb))
  | .sub => .ok (.num (toQ va - toQ vb))
  | .mul => .ok (.num (toQ va * toQ vb))
  | .div => if toQ vb = 0 then .error .zeroDivision else .ok (.num (toQ va / toQ vb))
  | .mod => if toQ vb = 0 then .error .zeroDivision else .ok (.num (pymod (toQ va) (toQ vb)))
  | .lt => .ok (.bool (decide (toQ va < toQ vb)))
  | .le => .ok (.bool (decide (toQ va ≤ toQ vb)))
  | .gt => .ok (.bool (decide (toQ vb < toQ va)))
  | .ge => .ok (.bool (decide (toQ vb ≤ toQ va)))
  | .eq => .ok (.bool (decide (toQ va = toQ vb)))
  | .ne => .ok (.bool (decide (toQ va ≠ toQ vb)))

/-- Evaluation focus: one expression or an argument list. -/
inductive EM where
  | one (e : Expr)
  | many (es : List Expr)

/-- Unpack an evaluation result expected to be one value. -/
def expectVal : Value ⊕ List Value → Except RuleError Value
  | .inl v => .ok v
  | .inr _ => .error (.exprSyntax (chars "internal"))

/-- Unpack an evaluation result expected to be a value list. -/
def expectVals : Value ⊕ List Value → Except RuleError (List Value)
  | .inr vs => .ok vs
  | .inl _ => .error (.exprSyntax (chars "internal"))

/-- Fueled evaluator for the restricted grammar against the merged
namespace, modelling the host `eval` call of the source. The boolean
connectives return one of their operands, and evaluation of a call
resolves the callee before its arguments, as in Python. Each recursive
call reduces the fuel by one while the focus shrinks, so fuel exceeding
the size of the expression is never exhausted. -/
def evalF (vars : VarEnv) : ℕ → EM → Except RuleError (Value ⊕ List Value)
  | 0, _ => .error (.exprSyntax (chars "fuel"))
  | fuel + 1, .one e =>
    match e with
    | .lit n => .ok (.inl (.num (n : ℚ)))
    | .evar s => (resolveName vars s).map .inl
    | .neg e1 => do
      let p ← evalF vars fuel (.one e1)
      let v ← expectVal p
      .ok (.inl (.num (-(toQ v))))
    | .lognot e1 => do
      let p ← evalF vars fuel (.one e1)
      let v ← expectVal p
      .ok (.inl (.bool (!truthy v)))
    | .orE a b => do
      let p ← evalF vars fuel (.one a)
      let va ← expectVal p
      if truthy va then .ok (.inl va) else evalF vars fuel (.one b)
    | .andE a b => do
      let p ← evalF vars fuel (.one a)
      let va ← expectVal p
      if truthy va then evalF vars fuel (.one b) else .ok (.inl va)
    | .bin o a b => do
      let p ← evalF vars fuel (.one a)
      let va ← expectVal p
      let q ← evalF vars fuel (.one b)
      let vb ← expectVal q
      (applyBin o va vb).map .inl
    | .call f args =>
      match lookupAssoc vars f with
      | some _ => do
        let _ ← evalF vars fuel (.many args)
        .error (.typeError f)
      | none =>
        if f ∈ allFuncNames then do
          let p ← evalF vars fuel (.many args)
          let vs ← expectVals p
          (applyFunc f vs).map .inl
        else .error (.nameError f)
  | _ + 1, .many [] => .ok (.inr [])
  | fuel + 1, .many (e :: es) => do
    let p ← evalF vars fuel (.one e)
    let v ← expectVal p
    let q ← evalF vars fuel (.many es)
    let vs ← expectVals q
    .ok (.inr (v :: vs))

/-- Evaluate an expression string to a value: parse it, then run the
fueled evaluator with fuel linear in the string length, which bounds the
size of any syntax tree parsed from it. -/
def evalValue (vars : VarEnv) (s : Chars) : Except RuleError Value := do
  let e ← parseExprString s
  let p ← evalF vars (10 * s.length + 20) (.one e)
  expectVal p

/-- Evaluate a condition string to its truthiness, as the `if` contexts of
the source do. -/
def evalCondTruth (vars : VarEnv) (s : Chars) : Except RuleError Bool := do
  let v ← evalValue vars s
  .ok (truthy v)

/-- Context entries supplied to one evaluation pass. The current values in
`data` are integers, as in the agent, so that the textual substitution
`str(data[0])` is exact. -/
structure ContextEntry where
  mid : Chars
  data : List ℤ
  ts : Chars
  deriving DecidableEq, Repr

/-- Engine state threaded through `parse_and_evaluate`, naming the local
variables of the source loop together with the instance field
`self.variables`. The head of `block_stack` is the most recently pushed
frame. -/
structure EngState where
  vars : VarEnv
  execute_actions : List Chars
  block_stack : List (Bool × Bool)
  should_evaluate : Bool
  block_executed : Bool
  deriving DecidableEq, Repr

/-- Initial engine state of one `parse_and_evaluate` call on an engine
whose variable environment is `vars`. -/
def initState (vars : VarEnv) : EngState :=
  { vars := vars
    execute_actions := []
    block_stack := []
    should_evaluate := true
    block_executed := false }

/-- The five keywords accepted by `validate_keywords`. -/
def keywordList : List Chars :=
  [chars "IF", chars "THEN", chars "ELSE", chars "ELSEIF", chars "ENDIF"]

/-- Per-word check of `RuleEngine.validate_keywords`: words containing a
parenthesis or an equals sign are skipped; a word equal to a keyword is
tested by `islower`; any other all-uppercase word is an invalid
keyword. -/
def checkWord (line w : Chars) : Except RuleError Unit :=
  if w.contains '(' || w.contains ')' || w.contains '=' then .ok ()
  else if w ∈ keywordList then
    if pyIsLower w then .error (.badCapitalization w line) else .ok ()
  else if pyIsUpper w then .error (.invalidKeyword w line)
  else .ok ()

/-- Run `checkWord` over a word list, stopping at the first error. -/
def validateWords (line : Chars) : List Chars → Except RuleError Unit
  | [] => .ok ()
  | w :: ws => do
    checkWord line w
    validateWords line ws

/-- Embedding of `RuleEngine.validate_keywords`. -/
def validate_keywords (line : Chars) : Except RuleError Unit :=
  validateWords line (wordsOf line)

/-- Embedding of `RuleEngine.get_data_for_mid`: the first entry with the
requested identifier supplies `data[0]`; an empty data list is the Python
`IndexError`; exhausting the context is the raised lookup failure. -/
def get_data_for_mid (mid : Chars) : List ContextEntry → Except RuleError ℤ
  | [] => .error (.midNotFound mid)
  | e :: rest =>
    if e.mid = mid then
      match e.data with
      | [] => .error (.dataIndex mid)
      | d :: _ => .ok d
    else get_data_for_mid mid rest

/-- The substitution loop of `parse_and_evaluate`: for each entry of the
context in order, look its identifier up in the full context and replace
every occurrence of the identifier in the line by the decimal rendering of
the value. -/
def substituteLine (full : List ContextEntry) (line : Chars) :
    List ContextEntry → Except RuleError Chars
  | [] => .ok line
  | e :: rest => do
    let v ← get_data_for_mid e.mid full
    substituteLine full (replaceSub e.mid (chars (toString v)) line) rest

/-- Embedding of `RuleEngine.preprocess_expression`: rewrite the logical
operator aliases before any line handling. -/
def preprocess_expression (e : Chars) : Chars :=
  replaceSub (chars "||") (chars "or")
    (replaceSub (chars "&&") (chars "and") e)

/-- One step of the block-tracking loop of `parse_and_evaluate`, applied
to a stripped, validated and substituted line. Branch order, error order
inside each branch and all state updates mirror the source. -/
def stepLine (st : EngState) (line : Chars) : Except RuleError EngState :=
  if (chars "IF").isPrefixOf line then
    if !occursIn (chars "THEN") line then .error (.missingThen line)
    else
      match extractParen line with
      | none => .error (.noParenMatch line)
      | some cond => do
        let cv ← evalCondTruth st.vars cond
        let newsev := st.should_evaluate && cv
        .ok { st with
              block_stack := (st.should_evaluate, st.block_executed) :: st.block_stack
              should_evaluate := newsev
              block_executed := newsev }
  else if (chars "ELSEIF").isPrefixOf line then
    match st.block_stack with
    | [] => .error (.elseifWithoutIf line)
    | (_, prev_be) :: _ =>
      if !occursIn (chars "THEN") line then .error (.missingThen line)
      else if !prev_be && !st.block_executed then
        match extractParen line with
        | none => .error (.noParenMatch line)
        | some cond => do
          let cv ← evalCondTruth st.vars cond
          .ok { st with should_evaluate := cv, block_executed := cv }
      else .ok { st with should_evaluate := false }
  else if (chars "ELSE").isPrefixOf line then
    match st.block_stack with
    | [] => .error (.elseWithoutIf line)
    | (_, prev_be) :: _ =>
      let ns := !st.block_executed && !prev_be
      .ok { st with should_evaluate := ns, block_executed := ns }
  else if (chars "ENDIF").isPrefixOf line then
    match st.block_stack with
    | [] => .error (.endifWithoutIf line)
    | (sev, be) :: rest =>
      .ok { st with
            should_evaluate := sev
            block_executed := be
            block_stack := rest }
  else if occursIn (chars "alert.") line then
    if st.should_evaluate then
      .ok { st with execute_actions := st.execute_actions ++ [pyStrip line] }
    else .ok st
  else if line.contains '=' then do
    let parts := splitOnFirstEq line
    let v ← evalValue st.vars (pyStrip parts.2)
    .ok { st with vars := updateAssoc st.vars (pyStrip parts.1) v }
  else .ok st

/-- Handle one raw line of the expression: strip it, skip it when blank,
validate the keywords, substitute the context values and take one block
step — in the order of the source loop body. -/
def processLine (context : List ContextEntry) (st : EngState) (rawLine : Chars) :
    Except RuleError EngState :=
  let line := pyStrip rawLine
  if line = [] then .ok st
  else do
    validate_keywords line
    let line2 ← substituteLine context line context
    stepLine st line2

/-- Run the loop over all lines, stopping at the first raised error but
keeping the state reached so far (the source mutates `self.variables` in
place, so assignments made before a failure persist on the engine). -/
def runLines (context : List ContextEntry) (st : EngState) :
    List Chars → EngState × Option RuleError
  | [] => (st, none)
  | l :: ls =>
    match processLine context st l with
    | .ok st' => runLines context st' ls
    | .error e => (st, some e)

/-- Run the block-step loop alone over already prepared lines. This is the
core of the engine on which the block-nesting properties are stated. -/
def stepsRun (st : EngState) : List Chars → Except RuleError EngState
  | [] => .ok st
  | l :: ls =>
    match stepLine st l with
    | .ok st' => stepsRun st' ls
    | .error e => .error e

/-- Full run of `RuleEngine.parse_and_evaluate` on an engine whose
variable environment is `vars`: the first component is the raised error or
the returned action list, the second the final variable environment of the
engine instance. -/
def engineRun (vars : VarEnv) (expression : Chars) (context : List ContextEntry) :
    Except RuleError (List Chars) × VarEnv :=
  let lines := splitOnNl (preprocess_expression expression)
  let p := runLines context (initState vars) lines
  match p.2 with
  | some e => (.error e, p.1.vars)
  | none =>
    if p.1.block_stack = [] then (.ok p.1.execute_actions, p.1.vars)
    else (.error (.unmatchedIf p.1.block_stack), p.1.vars)

/-- Result of a successful `parse_and_evaluate` call: the accumulated
action tokens and the engine variable environment after the call. -/
structure EngineResult where
  actions : List Chars
  vars : VarEnv
  deriving DecidableEq, Repr

/-- Embedding of `RuleEngine.parse_and_evaluate` as called on an engine
whose variable environment is `vars`. -/
def parse_and_evaluate (vars : VarEnv) (expression : Chars)
    (context : List ContextEntry) : Except RuleError EngineResult :=
  let p := engineRun vars expression context
  match p.1 with
  | .ok acts => .ok ⟨acts, p.2⟩
  | .error e => .error e

/-- Embedding of `RuleAgent.evaluate_rules`: evaluate each expression in
order on the one shared engine, recording the outcome of every rule; a
raised error is caught and recorded, and evaluation continues with the
next rule. The second component is the engine environment after the
batch. -/
def evaluate_rules (context : List ContextEntry) :
    VarEnv → List Chars → List (Except RuleError (List Chars)) × VarEnv
  | vars, [] => ([], vars)
  | vars, r :: rs =>
    let p := engineRun vars r context
    let q := evaluate_rules context p.2 rs
    (p.1 :: q.1, q.2)

/-- The context snapshot hard-coded in `RuleAgent.__init__`. -/
def stdContext : List ContextEntry :=
  [⟨chars "sensor1", [5], chars "1627395600"⟩,
   ⟨chars "sensor2", [8], chars "1627392000"⟩,
   ⟨chars "sensor3", [10], chars "1627392001"⟩]

/-- Line classification implied by the branch order of the loop body, used
to state block-nesting properties. -/
inductive LK where
  | kif | kelseif | kelse | kendif | kother
  deriving DecidableEq, Repr

/-- Classify a prepared line exactly as the prefix tests of the loop body
do, in their order. -/
def lineKind (l : Chars) : LK :=
  if (chars "IF").isPrefixOf l then .kif
  else if (chars "ELSEIF").isPrefixOf l then .kelseif
  else if (chars "ELSE").isPrefixOf l then .kelse
  else if (chars "ENDIF").isPrefixOf l then .kendif
  else .kother

/-- Depth bookkeeping for a list of prepared lines, starting from `d` open
frames owned by the list: `IF` opens one, `ENDIF` must close one owned by
the list. Holds when no `ENDIF` of the list pops below the starting
stack. -/
def nonnegDepth : ℕ → List Chars → Bool
  | _, [] => true
  | d, l :: ls =>
    match lineKind l with
    | .kif => nonnegDepth (d + 1) ls
    | .kendif => decide (0 < d) && nonnegDepth (d - 1) ls
    | _ => nonnegDepth d ls

/-- Detector for the capitalization error, used to state that this error
is unreachable. -/
def isBadCapResult : Except RuleError Unit → Bool
  | .error (.badCapitalization _ _) => true
  | _ => false

/-! ### Helper lemmas -/

theorem except_bind_ok {α β ε : Type} (a : α) (f : α → Except ε β) :
    (Except.ok a >>= f : Except ε β) = f a := rfl

theorem except_bind_error {α β ε : Type} (e : ε) (f : α → Except ε β) :
    (Except.error e >>= f : Except ε β) = Except.error e := rfl

theorem pySum_eq_sum (l : List ℚ) : pySum l = l.sum := by
  rw [pySum, List.sum_eq_foldl]

/-- Exhaustive description of `lineKind` in terms of the prefix tests of
the loop body. -/
theorem lineKind_cases (l : Chars) :
    (lineKind l = LK.kif → (chars "IF").isPrefixOf l = true) ∧
    (lineKind l = LK.kelseif →
      (chars "IF").isPrefixOf l = false ∧ (chars "ELSEIF").isPrefixOf l = true) ∧
    (lineKind l = LK.kelse →
      (chars "IF").isPrefixOf l = false ∧ (chars "ELSEIF").isPrefixOf l = false ∧
      (chars "ELSE").isPrefixOf l = true) ∧
    (lineKind l = LK.kendif →
      (chars "IF").isPrefixOf l = false ∧ (chars "ELSEIF").isPrefixOf l = false ∧
      (chars "ELSE").isPrefixOf l = false ∧ (chars "ENDIF").isPrefixOf l = true) ∧
    (lineKind l = LK.kother →
      (chars "IF").isPrefixOf l = false ∧ (chars "ELSEIF").isPrefixOf l = false ∧
      (chars "ELSE").isPrefixOf l = false ∧ (chars "ENDIF").isPrefixOf l = false) := by
  unfold lineKind
  by_cases h1 : (chars "IF").isPrefixOf l <;>
    by_cases h2 : (chars "ELSEIF").isPrefixOf l <;>
      by_cases h3 : (chars "ELSE").isPrefixOf l <;>
        by_cases h4 : (chars "ENDIF").isPrefixOf l <;>
          simp [h1, h2, h3, h4]

theorem checkWord_no_badCap (line w : Chars) :
    isBadCapResult (checkWord line w) = false := by
  unfold checkWord
  split
  · rfl
  · split
    · split
      · rename_i hmem hlow
        exfalso
        simp only [keywordList, chars, List.mem_cons, List.not_mem_nil,
          or_false] at hmem
        rcases hmem with rfl | rfl | rfl | rfl | rfl <;>
          exact absurd hlow (by decide)
      · rfl
    · split
      · rfl
      · rfl

theorem validateWords_no_badCap (line : Chars) (ws : List Chars) :
    isBadCapResult (validateWords line ws) = false := by
  induction ws with
  | nil => rfl
  | cons w rest ih =>
    show isBadCapResult (checkWord line w >>= fun _ => validateWords line rest) = false
    cases hcw : checkWord line w with
    | ok u => rw [except_bind_ok]; exact ih
    | error e =>
      rw [except_bind_error]
      have := checkWord_no_badCap line w
      rw [hcw] at this
      exact this

theorem validate_keywords_no_badCap (line : Chars) :
    isBadCapResult (validate_keywords line) = false :=
  validateWords_no_badCap line (wordsOf line)

/-! ### Claim theorems -/

/-- C8: the Function Library satisfies the stated arithmetic. `SUM` is the
sum of its arguments; `SUB` of a single argument is the identity and
otherwise the first argument minus the sum of the rest; `PROD` is the
product of its arguments with empty product 1; `AVG` is the arithmetic
mean; and the stated round-trips hold: SUM(2,3,5) = 10, SUB(10,2,3) = 5,
PROD() = 1, AVG(2,4) = 3. -/
theorem mathOperation_arith :
    (∀ args : List ℚ, math_operation (chars "SUM") args = .ok args.sum) ∧
    (∀ a : ℚ, math_operation (chars "SUB") [a] = .ok a) ∧
    (∀ (a : ℚ) (rest : List ℚ), rest ≠ [] →
      math_operation (chars "SUB") (a :: rest) = .ok (a - rest.sum)) ∧
    (∀ args : List ℚ, math_operation (chars "PROD") args = .ok args.prod) ∧
    (math_operation (chars "PROD") [] = .ok 1) ∧
    (∀ args : List ℚ, args ≠ [] →
      math_operation (chars "AVG") args = .ok (args.sum / (args.length : ℚ))) ∧
    math_operation (chars "SUM") [2, 3, 5] = .ok 10 ∧
    math_operation (chars "SUB") [10, 2, 3] = .ok 5 ∧
    math_operation (chars "AVG") [2, 4] = .ok 3 := by
  refine ⟨?_, ?_, ?_, ?_, ?_, ?_, ?_, ?_, ?_⟩
  · intro args
    show Except.ok (pySum args) = _
    rw [pySum_eq_sum]
  · intro a
    rfl
  · intro a rest h
    cases rest with
    | nil => exact absurd rfl h
    | cons b bs =>
      show Except.ok (a - pySum (b :: bs)) = _
      rw [pySum_eq_sum]
  · intro args
    show Except.ok (args.foldl (fun a b => a * b) 1) = _
    rw [List.prod_eq_foldl]
  · rfl
  · intro args h
    cases args with
    | nil => exact absurd rfl h
    | cons b bs =>
      show math_operation (chars "AVG") (b :: bs) = _
      unfold math_operation
      rw [if_neg (by decide), if_neg (by decide), if_neg (by decide),
        if_neg (by decide), if_neg (by decide), if_neg (by decide),
        if_neg (by decide), if_pos rfl, if_neg h, pySum_eq_sum]
  · show Except.ok (pySum [2, 3, 5]) = _
    norm_num [pySum]
  · show Except.ok ((10 : ℚ) - pySum [2, 3]) = _
    norm_num [pySum]
  · show math_operation (chars "AVG") [2, 4] = _
    unfold math_operation
    rw [if_neg (by decide), if_neg (by decide), if_neg (by decide),
      if_neg (by decide), if_neg (by decide), if_neg (by decide),
      if_neg (by decide), if_pos rfl, if_neg (by decide)]
    norm_num [pySum]

/-- Witness for C8: the hypothesis-bearing conjuncts applied at the
round-trip inputs. -/
theorem mathOperation_arith_witness :
    math_operation (chars "SUB") (10 :: [2, 3]) = .ok (10 - ([2, 3] : List ℚ).sum) ∧
    math_operation (chars "AVG") [2, 4] =
      .ok (([2, 4] : List ℚ).sum / ((([2, 4] : List ℚ).length : ℕ) : ℚ)) :=
  ⟨mathOperation_arith.2.2.1 10 [2, 3] (List.cons_ne_nil _ _),
   mathOperation_arith.2.2.2.2.2.1 [2, 4] (List.cons_ne_nil _ _)⟩

/-- C3: the claim states that a lowercase keyword such as `if` fails with
the capitalization error before further processing. In the source the
membership test against the uppercase keyword list precedes the `islower`
test, so the capitalization branch is unreachable: validation never
produces it on any line, a lone lowercase `if` line evaluates without any
error (the line is silently ignored), and the Scenario C expression fails
only later, with the unrelated unmatched-`ENDIF` error. -/
theorem lowercase_keyword_not_rejected :
    (∀ line : Chars, isBadCapResult (validate_keywords line) = false) ∧
    parse_and_evaluate [] (chars "if (sensor1 > 3) THEN") stdContext =
      .ok ⟨[], []⟩ ∧
    parse_and_evaluate [] (chars "if (sensor1 > 3) THEN\nalert.email\nENDIF") stdContext =
      .error (.endifWithoutIf (chars "ENDIF")) :=
  ⟨validate_keywords_no_badCap, by decide, by decide⟩

theorem replaceSubF_no_occur (pat rep : Chars) (fuel : ℕ) :
    ∀ s : Chars, occursIn pat s = false → replaceSubF pat rep fuel s = s := by
  induction fuel with
  | zero =>
    intro s _
    cases s <;> rfl
  | succ fuel ih =>
    intro s h
    cases s with
    | nil => rfl
    | cons c rest =>
      simp only [occursIn, Bool.or_eq_false_iff] at h
      show replaceSubF pat rep (fuel + 1) (c :: rest) = c :: rest
      unfold replaceSubF
      rw [if_neg (by
        intro hc
        rw [hc.2] at h
        exact absurd h.1 (by simp))]
      rw [ih rest h.2]

theorem replaceSub_no_occur (pat rep s : Chars) (h : occursIn pat s = false) :
    replaceSub pat rep s = s :=
  replaceSubF_no_occur pat rep s.length s h

theorem get_data_for_mid_found (e : ContextEntry) :
    ∀ context : List ContextEntry, e ∈ context → (∀ x ∈ context, x.data ≠ []) →
    ∃ v, get_data_for_mid e.mid context = .ok v := by
  intro context
  induction context with
  | nil => intro h; exact absurd h (List.not_mem_nil e)
  | cons x rest ih =>
    intro hmem hdata
    by_cases hx : x.mid = e.mid
    · cases hd : x.data with
      | nil => exact absurd hd (hdata x (List.mem_cons_self x rest))
      | cons d ds =>
        refine ⟨d, ?_⟩
        unfold get_data_for_mid
        rw [if_pos hx, hd]
    · have hmem' : e ∈ rest := by
        rcases List.mem_cons.mp hmem with rfl | h
        · exact absurd rfl hx
        · exact h
      obtain ⟨v, hv⟩ := ih hmem' (fun y hy => hdata y (List.mem_cons_of_mem x hy))
      refine ⟨v, ?_⟩
      unfold get_data_for_mid
      rw [if_neg hx, hv]

theorem substituteLine_no_occur (full : List ContextEntry)
    (hdata : ∀ x ∈ full, x.data ≠ []) :
    ∀ (iter : List ContextEntry) (line : Chars), (∀ e ∈ iter, e ∈ full) →
    (∀ e ∈ iter, occursIn e.mid line = false) →
    substituteLine full line iter = .ok line := by
  intro iter
  induction iter with
  | nil => intro line _ _; rfl
  | cons e rest ih =>
    intro line hsub hocc
    obtain ⟨v, hv⟩ :=
      get_data_for_mid_found e full (hsub e (List.mem_cons_self e rest)) hdata
    show (get_data_for_mid e.mid full >>= fun v =>
      substituteLine full (replaceSub e.mid (chars (toString v)) line) rest) = .ok line
    rw [hv, except_bind_ok,
      replaceSub_no_occur e.mid (chars (toString v)) line
        (hocc e (List.mem_cons_self e rest))]
    exact ih line (fun x hx => hsub x (List.mem_cons_of_mem e hx))
      (fun x hx => hocc x (List.mem_cons_of_mem e hx))

/-- C5 counterexample: the claim states that a token merely containing a
context mid as a proper prefix, such as `sensor10` with `sensor1` in the
context, is left unchanged by substitution. The source substitutes by
literal substring replacement, so `sensor10` is rewritten to `50` when
`sensor1` carries the value 5. -/
theorem substitution_rewrites_partial_names :
    substituteLine stdContext (chars "IF (sensor10 > 3) THEN") stdContext =
      .ok (chars "IF (50 > 3) THEN") ∧
    chars "IF (50 > 3) THEN" ≠ chars "IF (sensor10 > 3) THEN" :=
  ⟨by decide, by decide⟩

/-- C5 amended: context substitution is literal substring replacement of
each mid, in context order, by the decimal rendering of `data[0]`; a token
containing a mid as a proper substring is therefore rewritten. What holds
is that a line in which no context mid occurs as a substring at all is
left unchanged by substitution. -/
theorem substitution_unchanged_without_occurrence
    (context : List ContextEntry) (line : Chars)
    (hdata : ∀ e ∈ context, e.data ≠ [])
    (hocc : ∀ e ∈ context, occursIn e.mid line = false) :
    substituteLine context line context = .ok line :=
  substituteLine_no_occur context hdata context line (fun _ h => h) hocc

/-- Witness for C5: the no-occurrence theorem applied to an action line
over the agent context. -/
theorem substitution_unchanged_witness :
    substituteLine stdContext (chars "alert.email") stdContext =
      .ok (chars "alert.email") :=
  substitution_unchanged_without_occurrence stdContext (chars "alert.email")
    (by decide) (by decide)

/-- C9: the Rule Agent isolates failures per rule. Every rule of a batch
produces exactly one recorded outcome; the outcome of the first rule is
the engine result on that rule and the remaining outcomes are those of the
remaining batch continued on the updated engine, whether or not the first
rule failed; and on the Scenario E batch, whose second rule is the
malformed `ENDIF`, rules one and three still produce their results while
rule two is recorded as failed. -/
theorem rule_batch_isolation :
    (∀ (context : List ContextEntry) (vars : VarEnv) (rules : List Chars),
      (evaluate_rules context vars rules).1.length = rules.length) ∧
    (∀ (context : List ContextEntry) (vars : VarEnv) (r : Chars) (rs : List Chars),
      (evaluate_rules context vars (r :: rs)).1 =
        (engineRun vars r context).1 ::
          (evaluate_rules context (engineRun vars r context).2 rs).1) ∧
    evaluate_rules stdContext []
      [chars "IF (sensor1 > 3) THEN\nalert.email\nENDIF", chars "ENDIF",
       chars "IF (sensor2 > 100) THEN\nalert.sms\nENDIF"] =
      ([.ok [chars "alert.email"], .error (.endifWithoutIf (chars "ENDIF")), .ok []],
       []) := by
  refine ⟨?_, ?_, by decide⟩
  · intro context vars rules
    induction rules generalizing vars with
    | nil => rfl
    | cons r rs ih =>
      show ((evaluate_rules context (engineRun vars r context).2 rs).1.length + 1 = _)
      rw [ih]
      rfl
  · intro context vars r rs
    rfl

/-- C10: keyword validation skips every word containing a parenthesis or
an equals sign, and rejects any other all-uppercase word that is not one
of the five keywords with the invalid-keyword error; consequently the
line `x = MOD (7, 3)`, in which `MOD` stands alone as a word, fails
validation (for every context and engine state, hence before any
substitution or evaluation of the line). -/
theorem keyword_validation_uppercase (line w : Chars) :
    ((w.contains '(' || w.contains ')' || w.contains '=') = true →
      checkWord line w = .ok ()) ∧
    ((w.contains '(' || w.contains ')' || w.contains '=') = false →
      w ∉ keywordList → pyIsUpper w = true →
      checkWord line w = .error (.invalidKeyword w line)) ∧
    (∀ (context : List ContextEntry) (st : EngState),
      processLine context st (chars "x = MOD (7, 3)") =
        .error (.invalidKeyword (chars "MOD") (chars "x = MOD (7, 3)"))) := by
  refine ⟨?_, ?_, ?_⟩
  · intro h
    unfold checkWord
    rw [if_pos h]
  · intro h1 h2 h3
    unfold checkWord
    rw [if_neg (by rw [h1]; exact Bool.false_ne_true), if_neg h2, if_pos h3]
  · intro context st
    rfl

/-- Witness for C10: the per-word conjuncts applied at a parenthesised
word, at the bare `MOD` word of the failing line, and at a bare uppercase
mid. -/
theorem keyword_validation_uppercase_witness :
    checkWord (chars "x = MOD (7, 3)") (chars "(7,") = .ok () ∧
    checkWord (chars "x = MOD (7, 3)") (chars "MOD") =
      .error (.invalidKeyword (chars "MOD") (chars "x = MOD (7, 3)")) ∧
    checkWord (chars "SENSOR1 > 3") (chars "SENSOR1") =
      .error (.invalidKeyword (chars "SENSOR1") (chars "SENSOR1 > 3")) ∧
    processLine stdContext (initState []) (chars "x = MOD (7, 3)") =
      .error (.invalidKeyword (chars "MOD") (chars "x = MOD (7, 3)")) :=
  ⟨(keyword_validation_uppercase (chars "x = MOD (7, 3)") (chars "(7,")).1
     (by decide),
   (keyword_validation_uppercase (chars "x = MOD (7, 3)") (chars "MOD")).2.1
     (by decide) (by decide) (by decide),
   (keyword_validation_uppercase (chars "SENSOR1 > 3") (chars "SENSOR1")).2.1
     (by decide) (by decide) (by decide),
   (keyword_validation_uppercase (chars "x") (chars "x")).2.2
     stdContext (initState [])⟩

/-- C2 counterexample: the claim states that within one chain, once a
branch has fired every later `ELSEIF` is forced off and at most one branch
body executes. The `ELSE` step resets `block_executed`, so an `ELSEIF`
placed after `ELSE` in the same chain evaluates its condition and fires a
second branch body: this expression executes both the `IF` body and the
late `ELSEIF` body. -/
theorem elseif_after_else_fires_again :
    parse_and_evaluate []
      (chars "IF (1 > 0) THEN\nalert.email\nELSE\nalert.sms\nELSEIF (1 > 0) THEN\nalert.web\nENDIF")
      [] =
      .ok ⟨[chars "alert.email", chars "alert.web"], []⟩ := by decide

/-- C2 amended: while `block_executed` is true — that is, after a branch
of the chain has fired and before any `ELSE` of that chain — an `ELSEIF`
line with `THEN` is forced to `should_evaluate = false` without its
condition being evaluated (the result is the same for every condition
text, including unevaluable ones), and an `ELSE` line does not execute.
The `ELSE` step, however, also resets `block_executed` to false, which is
what permits a grammar-violating `ELSEIF` placed after `ELSE` to fire a
second branch. -/
theorem elseif_else_forced_after_fired (st : EngState) (line : Chars)
    (hbe : st.block_executed = true) (hstack : st.block_stack ≠ []) :
    (lineKind line = LK.kelseif → occursIn (chars "THEN") line = true →
      stepLine st line = .ok { st with should_evaluate := false }) ∧
    (lineKind line = LK.kelse →
      stepLine st line =
        .ok { st with should_evaluate := false, block_executed := false }) := by
  constructor
  · intro hk hthen
    obtain ⟨hif, helseif⟩ := (lineKind_cases line).2.1 hk
    cases hbs : st.block_stack with
    | nil => exact absurd hbs hstack
    | cons p rest =>
      obtain ⟨p1, p2⟩ := p
      simp [stepLine, hif, helseif, hthen, hbe, hbs]
  · intro hk
    obtain ⟨hif, helseif, helse⟩ := (lineKind_cases line).2.2.1 hk
    cases hbs : st.block_stack with
    | nil => exact absurd hbs hstack
    | cons p rest =>
      obtain ⟨p1, p2⟩ := p
      simp [stepLine, hif, helseif, helse, hbe, hbs]

/-- Witness for C2: the forced `ELSEIF` applied to a condition that could
not even be evaluated (it references the unbound name `sensor9`), showing
that the condition is not evaluated, and the non-executing `ELSE`. -/
theorem elseif_else_forced_witness :
    stepLine ⟨[], [], [(true, false)], true, true⟩
        (chars "ELSEIF (sensor9 > 3) THEN") =
      .ok { (⟨[], [], [(true, false)], true, true⟩ : EngState) with
            should_evaluate := false } ∧
    stepLine ⟨[], [], [(true, false)], true, true⟩ (chars "ELSE") =
      .ok { (⟨[], [], [(true, false)], true, true⟩ : EngState) with
            should_evaluate := false, block_executed := false } :=
  ⟨(elseif_else_forced_after_fired ⟨[], [], [(true, false)], true, true⟩
      (chars "ELSEIF (sensor9 > 3) THEN") rfl (by decide)).1 (by decide) (by decide),
   (elseif_else_forced_after_fired ⟨[], [], [(true, false)], true, true⟩
      (chars "ELSE") rfl (by decide)).2 (by decide)⟩

/-- C6: an assignment line is not gated by the enclosing conditional: for
every engine state — in particular one whose `should_evaluate` is false —
the variable environment is updated in place with the evaluated value,
while an action line in the same position is not recorded when
`should_evaluate` is false. -/
theorem assignment_not_gated (st : EngState) (line : Chars) (v : Value)
    (h1 : (chars "IF").isPrefixOf line = false)
    (h2 : (chars "ELSEIF").isPrefixOf line = false)
    (h3 : (chars "ELSE").isPrefixOf line = false)
    (h4 : (chars "ENDIF").isPrefixOf line = false)
    (h5 : occursIn (chars "alert.") line = false)
    (h6 : line.contains '=' = true)
    (hev : evalValue st.vars (pyStrip (splitOnFirstEq line).2) = .ok v) :
    stepLine st line =
      .ok { st with vars := updateAssoc st.vars (pyStrip (splitOnFirstEq line).1) v } ∧
    (st.should_evaluate = false →
      ∀ aline : Chars, (chars "IF").isPrefixOf aline = false →
        (chars "ELSEIF").isPrefixOf aline = false →
        (chars "ELSE").isPrefixOf aline = false →
        (chars "ENDIF").isPrefixOf aline = false →
        occursIn (chars "alert.") aline = true →
        stepLine st aline = .ok st) := by
  constructor
  · have h6m : '=' ∈ line := by simpa using h6
    simp [stepLine, h1, h2, h3, h4, h5, h6m, hev, except_bind_ok]
  · intro hsev aline g1 g2 g3 g4 g5
    simp [stepLine, g1, g2, g3, g4, g5, hsev]

/-- Witness for C6: inside a block whose `should_evaluate` is false, the
assignment `x = 5` still updates the environment while `alert.email` is
not recorded. -/
theorem assignment_not_gated_witness :
    stepLine ⟨[], [], [(true, false)], false, false⟩ (chars "x = 5") =
      .ok { (⟨[], [], [(true, false)], false, false⟩ : EngState) with
            vars := updateAssoc []
              (pyStrip (splitOnFirstEq (chars "x = 5")).1) (Value.num 5) } ∧
    stepLine ⟨[], [], [(true, false)], false, false⟩ (chars "alert.email") =
      .ok ⟨[], [], [(true, false)], false, false⟩ := by
  have h := assignment_not_gated ⟨[], [], [(true, false)], false, false⟩
    (chars "x = 5") (Value.num 5) (by decide) (by decide) (by decide) (by decide)
    (by decide) (by decide) (by decide)
  exact ⟨h.1, h.2 rfl (chars "alert.email") (by decide) (by decide) (by decide)
    (by decide) (by decide)⟩

/-- C7: the engine fails on unbalanced blocks exactly as claimed. When the
line loop finishes with a non-empty Block State stack the call raises the
unmatched-block error and returns no actions, and with an empty stack it
returns the accumulated actions; an `ELSEIF`, `ELSE` or `ENDIF` line
reached while the stack is empty raises its without-matching-`IF` error
immediately. -/
theorem unbalanced_blocks_raise :
    (∀ (vars : VarEnv) (expr : Chars) (context : List ContextEntry) (st : EngState),
      runLines context (initState vars) (splitOnNl (preprocess_expression expr)) =
        (st, none) →
      (st.block_stack ≠ [] →
        parse_and_evaluate vars expr context = .error (.unmatchedIf st.block_stack)) ∧
      (st.block_stack = [] →
        parse_and_evaluate vars expr context = .ok ⟨st.execute_actions, st.vars⟩)) ∧
    (∀ (st : EngState) (line : Chars), st.block_stack = [] →
      (lineKind line = LK.kelseif →
        stepLine st line = .error (.elseifWithoutIf line)) ∧
      (lineKind line = LK.kelse →
        stepLine st line = .error (.elseWithoutIf line)) ∧
      (lineKind line = LK.kendif →
        stepLine st line = .error (.endifWithoutIf line))) := by
  constructor
  · intro vars expr context st hrun
    constructor
    · intro hne
      simp [parse_and_evaluate, engineRun, hrun, hne]
    · intro heq
      simp [parse_and_evaluate, engineRun, hrun, heq]
  · intro st line hbs
    refine ⟨?_, ?_, ?_⟩
    · intro hk
      obtain ⟨hif, helseif⟩ := (lineKind_cases line).2.1 hk
      simp [stepLine, hif, helseif, hbs]
    · intro hk
      obtain ⟨hif, helseif, helse⟩ := (lineKind_cases line).2.2.1 hk
      simp [stepLine, hif, helseif, helse, hbs]
    · intro hk
      obtain ⟨hif, helseif, helse, hendif⟩ := (lineKind_cases line).2.2.2.1 hk
      simp [stepLine, hif, helseif, helse, hendif, hbs]

/-- Witness for C7: an `IF` with no `ENDIF` raises the unmatched-block
error with no actions returned, a balanced action line returns its action,
and a bare `ENDIF` at empty stack raises immediately. -/
theorem unbalanced_blocks_raise_witness :
    parse_and_evaluate [] (chars "IF (1 > 0) THEN") stdContext =
      .error (.unmatchedIf [(true, false)]) ∧
    parse_and_evaluate [] (chars "alert.web") stdContext =
      .ok ⟨[chars "alert.web"], []⟩ ∧
    stepLine (initState []) (chars "ENDIF") =
      .error (.endifWithoutIf (chars "ENDIF")) :=
  ⟨(unbalanced_blocks_raise.1 [] (chars "IF (1 > 0) THEN") stdContext
      ⟨[], [], [(true, false)], true, true⟩ (by decide)).1 (by decide),
   (unbalanced_blocks_raise.1 [] (chars "alert.web") stdContext
      ⟨[], [chars "alert.web"], [], true, false⟩ (by decide)).2 rfl,
   (unbalanced_blocks_raise.2 (initState []) (chars "ENDIF") rfl).2.2 (by decide)⟩

theorem stepsRun_false_block (lines : List Chars) :
    ∀ (d : ℕ) (st st' : EngState),
    (∀ l ∈ lines, lineKind l ≠ LK.kelseif ∧ lineKind l ≠ LK.kelse) →
    nonnegDepth d lines = true →
    st.should_evaluate = false →
    (∀ f ∈ st.block_stack.take d, f.1 = false) →
    stepsRun st lines = .ok st' →
    st'.execute_actions = st.execute_actions := by
  induction lines with
  | nil =>
    intro d st st' _ _ _ _ hrun
    simp only [stepsRun] at hrun
    cases hrun
    rfl
  | cons l ls ih =>
    intro d st st' hk hd hsev hstack hrun
    have hkl := hk l (List.mem_cons_self l ls)
    have hkrest : ∀ x ∈ ls, lineKind x ≠ LK.kelseif ∧ lineKind x ≠ LK.kelse :=
      fun x hx => hk x (List.mem_cons_of_mem l hx)
    cases hstep : stepLine st l with
    | error e =>
      simp only [stepsRun, hstep] at hrun
      exact Except.noConfusion hrun
    | ok st1 =>
      simp only [stepsRun, hstep] at hrun
      cases hlk : lineKind l with
      | kelseif => exact absurd hlk hkl.1
      | kelse => exact absurd hlk hkl.2
      | kif =>
        have hif := (lineKind_cases l).1 hlk
        simp only [nonnegDepth, hlk] at hd
        cases hthen : occursIn (chars "THEN") l with
        | false => simp [stepLine, hif, hthen] at hstep
        | true =>
          cases hex : extractParen l with
          | none => simp [stepLine, hif, hthen, hex] at hstep
          | some cond =>
            cases hev : evalCondTruth st.vars cond with
            | error e =>
              simp [stepLine, hif, hthen, hex, hev, except_bind_error] at hstep
            | ok cv =>
              simp [stepLine, hif, hthen, hex, hev, except_bind_ok] at hstep
              subst hstep
              have hsev2 : (st.should_evaluate && cv) = false := by
                simp [hsev]
              have hstk2 : ∀ f ∈ ((st.should_evaluate, st.block_executed) ::
                  st.block_stack).take (d + 1), f.1 = false := by
                intro f hf
                rw [List.take_succ_cons] at hf
                rcases List.mem_cons.mp hf with rfl | hf2
                · exact hsev
                · exact hstack f hf2
              exact ih (d + 1)
                { st with
                  block_stack := (st.should_evaluate, st.block_executed) :: st.block_stack,
                  should_evaluate := st.should_evaluate && cv,
                  block_executed := st.should_evaluate && cv }
                st' hkrest hd hsev2 hstk2 hrun
      | kendif =>
        obtain ⟨hif, helseif, helse, hendif⟩ := (lineKind_cases l).2.2.2.1 hlk
        simp only [nonnegDepth, hlk, Bool.and_eq_true, decide_eq_true_eq] at hd
        obtain ⟨hdpos, hd2⟩ := hd
        obtain ⟨k, rfl⟩ : ∃ k, d = k + 1 := ⟨d - 1, (Nat.succ_pred_eq_of_pos hdpos).symm⟩
        cases hbs : st.block_stack with
        | nil => simp [stepLine, hif, helseif, helse, hendif, hbs] at hstep
        | cons f rest =>
          obtain ⟨f1, f2⟩ := f
          simp [stepLine, hif, helseif, helse, hendif, hbs] at hstep
          subst hstep
          have hf1 : f1 = false := by
            apply hstack (f1, f2)
            rw [hbs, List.take_succ_cons]
            exact List.mem_cons_self _ _
          have hstk2 : ∀ g ∈ rest.take k, g.1 = false := by
            intro g hg
            apply hstack
            rw [hbs, List.take_succ_cons]
            exact List.mem_cons_of_mem _ hg
          exact ih k
            { st with should_evaluate := f1, block_executed := f2, block_stack := rest }
            st' hkrest (by simpa using hd2) hf1 hstk2 hrun
      | kother =>
        obtain ⟨hif, helseif, helse, hendif⟩ := (lineKind_cases l).2.2.2.2 hlk
        simp only [nonnegDepth, hlk] at hd
        cases halert : occursIn (chars "alert.") l with
        | true =>
          simp [stepLine, hif, helseif, helse, hendif, halert, hsev] at hstep
          subst hstep
          exact ih d st st' hkrest hd hsev hstack hrun
        | false =>
          cases heq : l.contains '=' with
          | true =>
            have heqm : '=' ∈ l := by simpa using heq
            cases hev : evalValue st.vars (pyStrip (splitOnFirstEq l).2) with
            | error e =>
              simp [stepLine, hif, helseif, helse, hendif, halert, heqm, hev,
                except_bind_error] at hstep
            | ok v =>
              simp [stepLine, hif, helseif, helse, hendif, halert, heqm, hev,
                except_bind_ok] at hstep
              subst hstep
              exact ih d
                { st with vars := updateAssoc st.vars (pyStrip (splitOnFirstEq l).1) v }
                st' hkrest hd hsev hstack hrun
          | false =>
            have heqm : '=' ∉ l := by simpa using heq
            simp [stepLine, hif, helseif, helse, hendif, halert, heqm] at hstep
            subst hstep
            exact ih d st st' hkrest hd hsev hstack hrun

/-- C1 counterexample: the claim states that an action line nested at any
depth inside a chain whose enclosing `IF` condition evaluated false is
never appended, including when an inner `ELSEIF` condition evaluates true.
In the source the `ELSEIF` step sets `should_evaluate` to the raw value of
its own condition without consulting the parent flag, so the inner
`ELSEIF` body fires inside the false outer `IF` and its action is
returned. -/
theorem inner_elseif_fires_under_false_if :
    parse_and_evaluate []
      (chars "IF (1 > 2) THEN\nIF (1 > 2) THEN\nalert.email\nELSEIF (2 > 1) THEN\nalert.sms\nENDIF\nENDIF")
      [] =
      .ok ⟨[chars "alert.sms"], []⟩ := by decide

/-- C1 amended: an action line is appended only while the current
`should_evaluate` flag is true, and after an `IF` whose condition
evaluates false, the lines inside its block append no action, provided
those lines contain no `ELSEIF`/`ELSE` branch (and never close more
blocks than they open, so that the enclosing frame stays on the stack).
An action line under an inner `ELSEIF` can be appended even when the
enclosing `IF` was false, because the `ELSEIF` step takes its
`should_evaluate` from its own condition alone. -/
theorem action_in_false_if_block_skipped (st : EngState) (ifline cond : Chars)
    (body : List Chars) (st' : EngState)
    (hkind : lineKind ifline = LK.kif)
    (hthen : occursIn (chars "THEN") ifline = true)
    (hex : extractParen ifline = some cond)
    (hcond : evalCondTruth st.vars cond = .ok false)
    (hbody : ∀ l ∈ body, lineKind l ≠ LK.kelseif ∧ lineKind l ≠ LK.kelse)
    (hdepth : nonnegDepth 0 body = true)
    (hrun : stepsRun st (ifline :: body) = .ok st') :
    st'.execute_actions = st.execute_actions := by
  have hif := (lineKind_cases ifline).1 hkind
  have hstep : stepLine st ifline = .ok { st with
      block_stack := (st.should_evaluate, st.block_executed) :: st.block_stack,
      should_evaluate := false, block_executed := false } := by
    simp [stepLine, hif, hthen, hex, hcond, except_bind_ok]
  simp only [stepsRun, hstep] at hrun
  exact stepsRun_false_block body 0
    { st with
      block_stack := (st.should_evaluate, st.block_executed) :: st.block_stack,
      should_evaluate := false, block_executed := false }
    st' hbody hdepth rfl (by intro f hf; simp at hf) hrun

/-- Witness for C1: a nested pure `IF` block with an action line under a
false outer condition appends nothing. -/
theorem action_in_false_if_block_witness :
    (⟨[], [], [(true, false)], false, false⟩ : EngState).execute_actions =
      (initState []).execute_actions :=
  action_in_false_if_block_skipped (initState []) (chars "IF (1 > 2) THEN")
    (chars "1 > 2") [chars "IF (3 > 1) THEN", chars "alert.email", chars "ENDIF"]
    ⟨[], [], [(true, false)], false, false⟩ (by decide) (by decide) (by decide)
    (by decide) (by decide) (by decide) (by decide)

